import Mathlib

/-!
Verification of the esdoc2 generation core (`src/ESDoc.js`).

This file gives a shallow embedding of the pure core of the generator:
the duplicate-resolution pass over documentation records, the
include/exclude path matcher, the per-file extraction driver with its
recoverable parse-failure handling, the pre-flight configuration
asserts, the configuration defaulting and plugin-hook ordering, and the
two directory-walk strategies over a modelled file-system tree.
External collaborators (the JavaScript parser, the extraction factory,
regular-expression matching, JSON parsing of package descriptors) are
abstracted as function parameters, exactly as the specification treats
them as out-of-scope collaborators.
-/

namespace ESDoc

/--
A documentation record as consumed by `_resolveDuplication`
(`src/ESDoc.js` lines 386-412): only the `kind`, `longname` and
`__docId__` fields are inspected there, so the embedding carries
exactly those.  `docId` stands for the JavaScript `__docId__`
creation-sequence identifier.
-/
structure Doc where
  kind : String
  longname : String
  docId : Nat
deriving DecidableEq, Repr

/--
`ids.sort((a, b) => a < b ? -1 : 1)` from `_resolveDuplication`
(line 403): an ascending numeric sort of the id array.  For the
pairwise-distinct ids the claims quantify over, the JavaScript
comparator is consistent and any sorting algorithm produces the unique
ascending arrangement; we use insertion sort.
-/
def sortIds (ids : List Nat) : List Nat :=
  List.insertionSort (· ≤ ·) ids

/--
The accumulated `removeIds` array of `_resolveDuplication`
(`src/ESDoc.js` lines 387-409), expressed as one pass over the member
records: for each record of kind `"member"` (line 387), if some record
shares its longname with a different kind the member's id is pushed
(lines 394-398); otherwise, if several members share the longname, all
their ids except the smallest are pushed (lines 400-408).
`List.flatMap` reproduces the loop's pushes in loop order.
-/
def removeIds (docs : List Doc) : List Nat :=
  (docs.filter (fun doc => doc.kind == "member")).flatMap (fun memberDoc =>
    match docs.find? (fun doc => doc.longname == memberDoc.longname && doc.kind != "member") with
    | some _ => [memberDoc.docId]
    | none =>
      let dup := docs.filter (fun doc => doc.longname == memberDoc.longname && doc.kind == "member")
      if dup.length > 1 then (sortIds (dup.map (fun v => v.docId))).tail
      else [])

/--
`_resolveDuplication` (`src/ESDoc.js` lines 386-412): compute the ids
to remove, then keep exactly the records whose id is not listed
(line 411, `docs.filter((doc) => !removeIds.includes(doc.__docId__))`).
-/
def _resolveDuplication (docs : List Doc) : List Doc :=
  docs.filter (fun doc => !(removeIds docs).contains doc.docId)

/--
The accept decision of `walkCallback` (`src/ESDoc.js` lines 106-120):
the first loop sets `match` as soon as one include pattern matches the
relative path and returns if none did; the second loop returns as soon
as one exclude pattern matches.  Only when both loops fall through is
the file handed to `_traverse` (line 123).  `RegExp` matching is an
external collaborator, abstracted as `String → Bool` matchers (one per
compiled pattern of lines 46-47).
-/
def walkCallbackAccepts (includes excludes : List (String → Bool))
    (relativeFilePath : String) : Bool :=
  if !(includes.any (fun reg => reg relativeFilePath)) then false
  else if excludes.any (fun reg => reg relativeFilePath) then false
  else true

section ExtractionDriver

variable {AST : Type}

/--
`_traverse` (`src/ESDoc.js` lines 302-325): invoke the external parser;
a parse failure is caught, logged via `InvalidCodeLogger.showFile`, and
the function returns `null` (modelled as `none`).  On success the AST
is traversed and the extraction collaborator produces the file's
records; parser and extractor are external collaborators, abstracted
as the `parse` and `extract` parameters.
-/
def _traverse (parse : String → Except String AST) (extract : AST → List Doc)
    (filePath : String) : Option (List Doc × AST) :=
  match parse filePath with
  | .error _ => none
  | .ok ast => some (extract ast, ast)

/--
The tail of `walkCallback` (`src/ESDoc.js` lines 122-126) for one
accepted file: on `null` from `_traverse` the callback returns without
touching the accumulators; otherwise the file's records are appended
to `results` and one AST persistence job is submitted.
-/
def processStep (parse : String → Except String AST) (extract : AST → List Doc)
    (acc : List Doc × List (String × AST)) (filePath : String) :
    List Doc × List (String × AST) :=
  match _traverse parse extract filePath with
  | none => acc
  | some t => (acc.1 ++ t.1, acc.2 ++ [(filePath, t.2)])

/--
The record collection and persistence-job sequence produced by running
`walkCallback` over the accepted files in walk order (`results` and the
`stringifyWriteTransform` submissions of `src/ESDoc.js` lines 62, 122-126).
-/
def processFiles (parse : String → Except String AST) (extract : AST → List Doc)
    (files : List String) : List Doc × List (String × AST) :=
  files.foldl (processStep parse extract) ([], [])

/--
The final `index.json` content (`src/ESDoc.js` lines 154-161): the
collected records pass through `_resolveDuplication`, then through the
`onHandleDocs` plugin hook, and the result is serialized.
-/
def indexJson (parse : String → Except String AST) (extract : AST → List Doc)
    (onHandleDocs : List Doc → List Doc) (files : List String) : List Doc :=
  onHandleDocs (_resolveDuplication (processFiles parse extract files).1)

end ExtractionDriver

def witnessParse : String → Except String Nat :=
  fun f => if f == "bad.src" then Except.error "SyntaxError" else Except.ok 0

def witnessExtract : Nat → List Doc :=
  fun n => [{ kind := "function", longname := "greet", docId := n }]

structure PackageDirectories where
  src : Option String
deriving DecidableEq, Repr

/--
The slice of a parsed package descriptor that `_walkRoot` and
`generate` inspect: `name`, `main` (lines 55-56) and
`directories.src` (line 234).
-/
structure PackageObj where
  name : Option String := none
  main : Option String := none
  directories : Option PackageDirectories := none
deriving DecidableEq, Repr

/-- JavaScript truthiness of an optional string field: present and non-empty. -/
def truthyS : Option String → Bool
  | some s => s != ""
  | none => false

/--
`(packageObj.directories && packageObj.directories.src) || 'src'`
(`src/ESDoc.js` lines 232-235): the declared source subdirectory, with
`"src"` as the default when `directories` or `directories.src` is falsy.
-/
def srcDirName (pkg : PackageObj) : String :=
  match pkg.directories with
  | none => "src"
  | some ds =>
    match ds.src with
    | some s => if s == "" then "src" else s
    | none => "src"

mutual
/-- A modelled file-system node: a file with its text contents, or a directory. -/
inductive FSTree where
  | file (contents : String)
  | dir (entries : FSEntries)
deriving DecidableEq, Repr
/-- The named entries of a modelled directory, in `readdirSync` order. -/
inductive FSEntries where
  | nil
  | cons (name : String) (tree : FSTree) (rest : FSEntries)
deriving DecidableEq, Repr
end

/-- `entries.includes(name)` over the `readdirSync` result (line 220). -/
def hasEntry : FSEntries → String → Bool
  | .nil, _ => false
  | .cons n _ rest, name => n == name || hasEntry rest name

/-- Path lookup of a directory entry by name (the `statSync`/`require` target). -/
def findEntry : FSEntries → String → Option FSTree
  | .nil, _ => none
  | .cons n t rest, name => if n == name then some t else findEntry rest name

/-- Concatenation of directory-entry sequences. -/
def FSEntries.append : FSEntries → FSEntries → FSEntries
  | .nil, b => b
  | .cons n t r, b => .cons n t (FSEntries.append r b)

/--
One walker callback invocation: `callback(filePath)` for a plain file,
or the synthetic `callback(packagePath, packageObj)` for a parsed
package descriptor (lines 129-135, 257).
-/
inductive WalkEvent where
  | fileCallback (path : List String)
  | descriptorCallback (path : List String) (pkg : PackageObj)
deriving DecidableEq, Repr

/--
The observable outcome of a walk: console diagnostics in emission
order, callback events in invocation order, and `err = some msg` when
an uncaught file-system exception aborted the walk at that point
(nothing after the throw is reached).
-/
structure WalkResult where
  logs : List String
  events : List WalkEvent
  err : Option String
deriving DecidableEq, Repr

/--
Sequencing of two walk stages: an uncaught exception in the first
stage propagates, so the second stage never runs.
-/
def combine (a b : WalkResult) : WalkResult :=
  match a.err with
  | some _ => a
  | none => { logs := a.logs ++ b.logs, events := a.events ++ b.events, err := b.err }

def pathStr (p : List String) : String := String.intercalate "/" p

/--
`require(packagePath)` of `_walkRoot` (line 226): load the
`package.json` entry and parse it with the external JSON parser
(abstracted as `pp`); any failure — including the entry not being a
regular file — surfaces as `none`, the caught-exception case.
-/
def requirePackage (pp : String → Option PackageObj) (entries : FSEntries) :
    Option PackageObj :=
  match findEntry entries "package.json" with
  | some (.file contents) => pp contents
  | _ => none

mutual
/--
`_walkRoot(dirPath, callback)` (`src/ESDoc.js` lines 217-268) over the
modelled tree, with `dirPath` the absolute path of the node.  On a
directory containing `package.json`: a successful parse logs, emits
the descriptor callback, and recurses into the resolved source
subdirectory only (returning afterwards, line 260) — including when
that subdirectory is missing or not a directory, in which case the
recursive `readdirSync` throws (the `err` field); a failed parse logs
two errors and returns without descending (lines 261-264).  Without
`package.json` the `_walk` loop runs with `recurse = _walkRoot`
(line 267).  Calling it on a non-directory models `readdirSync`
throwing `ENOTDIR`.
-/
def walkRoot (pp : String → Option PackageObj) : FSTree → List String → WalkResult
  | .file _, dirPath =>
    { logs := [], events := [],
      err := some ("ENOTDIR: not a directory, scandir " ++ pathStr dirPath) }
  | .dir entries, dirPath =>
    if hasEntry entries "package.json" then
      match requirePackage pp entries with
      | some pkg =>
        let srcName := srcDirName pkg
        let statLogs :=
          match findEntry entries srcName with
          | none =>
            ["Looked for project sources in " ++ pathStr (dirPath ++ [srcName]) ++
               ", but the directory did not exist.",
             "You are seeing this because you attempted to document a folder which contains a package.json file.",
             "If you need to override the source directory of a package, set directories src in package.json."]
          | some (.file _) =>
            ["Tried to find project sources in " ++ pathStr (dirPath ++ [srcName]) ++
               ", which is not a directory.",
             "You are seeing this because you attempted to document a folder which contains a package.json file.",
             "If you need to override the source directory of a package, set directories src in package.json."]
          | some (.dir _) => []
        let rest := walkRootSrc pp entries srcName (dirPath ++ [srcName])
        { logs := ("Found package at " ++ pathStr (dirPath ++ ["package.json"])) ::
            statLogs ++ rest.logs,
          events := WalkEvent.descriptorCallback (dirPath ++ ["package.json"]) pkg ::
            rest.events,
          err := rest.err }
      | none =>
        { logs := ["Failed to parse package at " ++ pathStr (dirPath ++ ["package.json"]),
                   "Found unparseable package.json at " ++
                     pathStr (dirPath ++ ["package.json"]) ++ ". Aborting."],
          events := [], err := none }
    else
      walkRootEntries pp entries dirPath

/--
The recursive `this._walkRoot(srcDir, callback)` call of line 259:
`srcDir` addresses the entry named `srcName` in the current directory;
when no such entry exists, `readdirSync(srcDir)` inside the recursive
call throws `ENOENT`.
-/
def walkRootSrc (pp : String → Option PackageObj) :
    FSEntries → String → List String → WalkResult
  | .nil, _, srcPath =>
    { logs := [], events := [],
      err := some ("ENOENT: no such file or directory, scandir " ++ pathStr srcPath) }
  | .cons n t rest, srcName, srcPath =>
    if n == srcName then walkRoot pp t srcPath
    else walkRootSrc pp rest srcName srcPath

/--
The `_walk` loop (`src/ESDoc.js` lines 276-289) as invoked from
`_walkRoot` with `recurse = this._walkRoot` (line 267): files fire the
callback, directories recurse through `_walkRoot`, in `readdirSync`
order; an uncaught exception aborts the remainder of the loop.
-/
def walkRootEntries (pp : String → Option PackageObj) :
    FSEntries → List String → WalkResult
  | .nil, _ => { logs := [], events := [], err := none }
  | .cons n t rest, dirPath =>
    combine
      (match t with
       | .file _ =>
         { logs := [], events := [WalkEvent.fileCallback (dirPath ++ [n])], err := none }
       | .dir es => walkRoot pp (.dir es) (dirPath ++ [n]))
      (walkRootEntries pp rest dirPath)
end

mutual
/--
`_walk(dirPath, callback)` with the default `recurse = this._walk`
(`src/ESDoc.js` lines 276-289), used in fixed-source mode (line 140):
plain unconditional recursive enumeration.
-/
def walkPlain : FSTree → List String → WalkResult
  | .file _, dirPath =>
    { logs := [], events := [],
      err := some ("ENOTDIR: not a directory, scandir " ++ pathStr dirPath) }
  | .dir es, dirPath => walkPlainEntries es dirPath

/-- The entry loop of the fixed-source `_walk`. -/
def walkPlainEntries : FSEntries → List String → WalkResult
  | .nil, _ => { logs := [], events := [], err := none }
  | .cons n t rest, dirPath =>
    combine
      (match t with
       | .file _ =>
         { logs := [], events := [WalkEvent.fileCallback (dirPath ++ [n])], err := none }
       | .dir es => walkPlain (.dir es) (dirPath ++ [n]))
      (walkPlainEntries rest dirPath)
end

def pkgLibParse : String → Option PackageObj :=
  fun c =>
    if c == "PKG_DIRECTORIES_SRC_LIB" then
      some { directories := some { src := some "lib" } }
    else none

/--
A package directory whose descriptor declares `directories.src = "lib"`
while no `lib` entry exists: the failing input of claim C5.
-/
def missingLibTree : FSTree :=
  .dir (.cons "package.json" (.file "PKG_DIRECTORIES_SRC_LIB")
    (.cons "index.js" (.file "module code") .nil))

def alwaysFailParse : String → Option PackageObj := fun _ => none

def badPkgEntries : FSEntries :=
  .cons "package.json" (.file "NOT JSON")
    (.cons "hidden.js" (.file "code") .nil)

/--
The configuration fields that `generate`, the asserts and
`_setDefaultConfig` inspect (`src/ESDoc.js` lines 29-47, 206-214).
`root`, `source`, `package`, `destination`, `index` are strings in the
JavaScript object, absent modelled as `none`; `includes`/`excludes`
are arrays of pattern strings (compiled to `RegExp` at lines 46-47).
-/
structure Config where
  root : Option String := none
  source : Option String := none
  package : Option String := none
  destination : Option String := none
  includes : Option (List String) := none
  excludes : Option (List String) := none
  index : Option String := none
deriving DecidableEq, Repr

/--
The assert sequence opening `generate` (`src/ESDoc.js` lines 31-36):
`assert(config.root || config.source)`; if `root` is truthy,
`assert(!config.source)` and `assert(!config.package)`; finally
`assert(config.destination)`.  The first failing assert throws.
-/
def preflight (config : Config) : Except String Unit :=
  if !(truthyS config.root || truthyS config.source) then
    Except.error "AssertionError: config.root or config.source"
  else if truthyS config.root && truthyS config.source then
    Except.error "AssertionError: not config.source"
  else if truthyS config.root && truthyS config.package then
    Except.error "AssertionError: not config.package"
  else if !(truthyS config.destination) then
    Except.error "AssertionError: config.destination"
  else Except.ok ()

/--
`_setDefaultConfig` (`src/ESDoc.js` lines 206-214): fill in `includes`
and `excludes` when the arrays are absent (a present array, even
empty, is truthy in JavaScript), `index` when falsy, and `package`
when `source` is truthy and `package` falsy.
-/
def _setDefaultConfig (config : Config) : Config :=
  let c1 := if config.includes.isSome then config
            else { config with includes := some ["\\.js$"] }
  let c2 := if c1.excludes.isSome then c1
            else { c1 with excludes := some ["\\.config\\.js$", "\\.test\\.js$"] }
  let c3 := if truthyS c2.index then c2
            else { c2 with index := some "./README.md" }
  if truthyS c3.source && !(truthyS c3.package) then
    { c3 with package := some "./package.json" }
  else c3

/--
The configuration phase of `generate` as the code orders it
(`src/ESDoc.js` lines 42-44): `config = Plugin.onHandleConfig(config)`
first, `this._setDefaultConfig(config)` afterwards.
-/
def configPhase (onHandleConfig : Config → Config) (config : Config) : Config :=
  _setDefaultConfig (onHandleConfig config)

/--
Modelled from the spec: the ordering claim C9 asserts — the
configuration is built with defaults applied and "the single
onHandleConfig rewrite occurs immediately after defaulting
(defaulting precedes the config hook)".  Kept separate from
`configPhase`, which follows the source, so the two orders can be
compared.
-/
def specConfigPhase (onHandleConfig : Config → Config) (config : Config) : Config :=
  onHandleConfig (_setDefaultConfig config)

/-- A legitimate config hook: derive the exclude list from the include list. -/
def hookCopyIncludes : Config → Config :=
  fun c => { c with excludes := c.includes }

/--
`generate` up to the walk (`src/ESDoc.js` lines 29-44, 137-141): the
pre-flight asserts run first (a failure aborts before anything else
happens), then the config hook, then defaulting; only then is the
directory walk started, in root mode through `_walkRoot` and
otherwise through `_walk`.  `tree` is the modelled file system at the
configured walk root.  The `Ok` payload carries the single effective
configuration used for the rest of the run together with the walk
outcome; an `error` result means no directory was ever read.
-/
def generateRun (onHandleConfig : Config → Config)
    (pp : String → Option PackageObj) (tree : FSTree) (c : Config) :
    Except String (Config × WalkResult) :=
  match preflight c with
  | .error e => .error e
  | .ok _ =>
    let config := _setDefaultConfig (onHandleConfig c)
    if truthyS config.root then Except.ok (config, walkRoot pp tree [])
    else Except.ok (config, walkPlain tree [])

theorem mem_resolveDuplication {docs : List Doc} {d : Doc} :
    d ∈ _resolveDuplication docs ↔ d ∈ docs ∧ d.docId ∉ removeIds docs := by
  simp [_resolveDuplication, List.mem_filter]

theorem not_mem_resolveDuplication {docs : List Doc} {d : Doc}
    (h : d.docId ∈ removeIds docs) : d ∉ _resolveDuplication docs := by
  rw [mem_resolveDuplication]
  exact fun hc => hc.2 h

theorem mem_sortIds {ids : List Nat} {x : Nat} : x ∈ sortIds ids ↔ x ∈ ids :=
  (List.perm_insertionSort (· ≤ ·) ids).mem_iff

theorem sorted_sortIds (ids : List Nat) : List.Sorted (· ≤ ·) (sortIds ids) :=
  List.sorted_insertionSort (· ≤ ·) ids

theorem exists_lt_of_mem_tail_sortIds {ids : List Nat} (hnd : ids.Nodup) {x : Nat}
    (hx : x ∈ (sortIds ids).tail) : x ∈ ids ∧ ∃ y ∈ ids, y < x := by
  have hperm : (sortIds ids).Perm ids := List.perm_insertionSort (· ≤ ·) ids
  have hsort := sorted_sortIds ids
  cases h : sortIds ids with
  | nil => rw [h] at hx; cases hx
  | cons hd tl =>
    rw [h] at hx hperm hsort
    simp only [List.tail_cons] at hx
    have hxs : x ∈ hd :: tl := List.mem_cons_of_mem hd hx
    have hnd' : (hd :: tl).Nodup := hperm.nodup_iff.mpr hnd
    have hne : x ≠ hd := by
      intro hEq
      exact (List.nodup_cons.mp hnd').1 (hEq ▸ hx)
    have hle : hd ≤ x := (List.sorted_cons.mp hsort).1 x hx
    exact ⟨hperm.subset hxs, hd, hperm.subset (List.mem_cons_self hd tl),
      lt_of_le_of_ne hle (fun hEq => hne hEq.symm)⟩

theorem mem_tail_sortIds_of_lt {ids : List Nat} {x y : Nat}
    (hx : x ∈ ids) (hy : y ∈ ids) (hyx : y < x) : x ∈ (sortIds ids).tail := by
  have hperm : (sortIds ids).Perm ids := List.perm_insertionSort (· ≤ ·) ids
  have hsort := sorted_sortIds ids
  cases h : sortIds ids with
  | nil =>
    rw [h] at hperm
    exact absurd (hperm.symm.subset hx) (List.not_mem_nil x)
  | cons hd tl =>
    rw [h] at hperm hsort
    simp only [List.tail_cons]
    have hxs : x ∈ hd :: tl := hperm.symm.subset hx
    rcases List.mem_cons.mp hxs with hxh | hxt
    · exfalso
      have hys : y ∈ hd :: tl := hperm.symm.subset hy
      rcases List.mem_cons.mp hys with hyh | hyt
      · exact absurd (hyh ▸ hxh ▸ hyx) (lt_irrefl _)
      · have : hd ≤ y := (List.sorted_cons.mp hsort).1 y hyt
        exact absurd (lt_of_le_of_lt (hxh ▸ this) hyx) (lt_irrefl _)
    · exact hxt

theorem docId_mem_removeIds_of_competing {docs : List Doc} {d e : Doc}
    (hd : d ∈ docs) (hdk : d.kind = "member") (he : e ∈ docs)
    (hl : e.longname = d.longname) (hek : e.kind ≠ "member") :
    d.docId ∈ removeIds docs := by
  unfold removeIds
  rw [List.mem_flatMap]
  refine ⟨d, List.mem_filter.mpr ⟨hd, by simp [hdk]⟩, ?_⟩
  have hsome : (docs.find? (fun doc => doc.longname == d.longname && doc.kind != "member")).isSome := by
    rw [List.find?_isSome]
    exact ⟨e, he, by simp [hl, hek]⟩
  obtain ⟨w, hw⟩ := Option.isSome_iff_exists.mp hsome
  rw [hw]
  simp

theorem docId_mem_removeIds_of_smaller {docs : List Doc} {d e : Doc}
    (hd : d ∈ docs) (hdk : d.kind = "member") (he : e ∈ docs)
    (hl : e.longname = d.longname) (hek : e.kind = "member") (hlt : e.docId < d.docId) :
    d.docId ∈ removeIds docs := by
  unfold removeIds
  rw [List.mem_flatMap]
  refine ⟨d, List.mem_filter.mpr ⟨hd, by simp [hdk]⟩, ?_⟩
  cases hfind : docs.find? (fun doc => doc.longname == d.longname && doc.kind != "member") with
  | some w => simp
  | none =>
    simp only
    have hdne : d ≠ e := by
      intro hEq
      exact absurd (hEq ▸ hlt) (lt_irrefl _)
    have hddup : d ∈ docs.filter (fun doc => doc.longname == d.longname && doc.kind == "member") :=
      List.mem_filter.mpr ⟨hd, by simp [hdk]⟩
    have hedup : e ∈ docs.filter (fun doc => doc.longname == d.longname && doc.kind == "member") :=
      List.mem_filter.mpr ⟨he, by simp [hl, hek]⟩
    have hlen : (docs.filter (fun doc => doc.longname == d.longname && doc.kind == "member")).length > 1 := by
      have hmem : d ∈ (docs.filter (fun doc => doc.longname == d.longname && doc.kind == "member")).erase e :=
        (List.mem_erase_of_ne hdne).mpr hddup
      have h1 : 0 < ((docs.filter (fun doc => doc.longname == d.longname && doc.kind == "member")).erase e).length :=
        List.length_pos_of_mem hmem
      have h2 := List.length_erase_of_mem hedup
      omega
    rw [if_pos hlen]
    exact mem_tail_sortIds_of_lt (List.mem_map_of_mem (fun v => v.docId) hddup)
      (List.mem_map_of_mem (fun v => v.docId) hedup) hlt

theorem of_mem_removeIds {docs : List Doc} (hnd : (docs.map Doc.docId).Nodup) {n : Nat}
    (hn : n ∈ removeIds docs) :
    ∃ d, d ∈ docs ∧ d.kind = "member" ∧ d.docId = n ∧
      ((∃ e ∈ docs, e.longname = d.longname ∧ e.kind ≠ "member") ∨
       (∃ e ∈ docs, e.longname = d.longname ∧ e.kind = "member" ∧ e.docId < d.docId)) := by
  unfold removeIds at hn
  rw [List.mem_flatMap] at hn
  obtain ⟨m, hmF, hbr⟩ := hn
  rw [List.mem_filter] at hmF
  obtain ⟨hm, hmk⟩ := hmF
  have hmk' : m.kind = "member" := by simpa using hmk
  cases hfind : docs.find? (fun doc => doc.longname == m.longname && doc.kind != "member") with
  | some w =>
    rw [hfind] at hbr
    simp only [List.mem_singleton] at hbr
    have hw := List.find?_some hfind
    simp only [Bool.and_eq_true, beq_iff_eq, bne_iff_ne, ne_eq] at hw
    exact ⟨m, hm, hmk', hbr.symm, Or.inl ⟨w, List.mem_of_find?_eq_some hfind, hw.1, hw.2⟩⟩
  | none =>
    rw [hfind] at hbr
    simp only at hbr
    by_cases hlen : (docs.filter (fun doc => doc.longname == m.longname && doc.kind == "member")).length > 1
    · rw [if_pos hlen] at hbr
      have hsub : ((docs.filter (fun doc => doc.longname == m.longname && doc.kind == "member")).map Doc.docId).Sublist
          (docs.map Doc.docId) :=
        (List.filter_sublist docs).map Doc.docId
      have hdupnd := hnd.sublist hsub
      obtain ⟨hmem, y, hy, hylt⟩ := exists_lt_of_mem_tail_sortIds hdupnd hbr
      obtain ⟨d, hdF, hdid⟩ := List.mem_map.mp hmem
      obtain ⟨e, heF, heid⟩ := List.mem_map.mp hy
      rw [List.mem_filter] at hdF heF
      have hdp : d.longname = m.longname ∧ d.kind = "member" := by
        have := hdF.2; simp only [Bool.and_eq_true, beq_iff_eq] at this; exact this
      have hep : e.longname = m.longname ∧ e.kind = "member" := by
        have := heF.2; simp only [Bool.and_eq_true, beq_iff_eq] at this; exact this
      refine ⟨d, hdF.1, hdp.2, hdid, Or.inr ⟨e, heF.1, ?_, hep.2, ?_⟩⟩
      · rw [hep.1, hdp.1]
      · rw [heid, hdid]; exact hylt
    · rw [if_neg hlen] at hbr
      cases hbr

theorem docId_inj {docs : List Doc} (hnd : (docs.map Doc.docId).Nodup)
    {a b : Doc} (ha : a ∈ docs) (hb : b ∈ docs) (h : a.docId = b.docId) : a = b :=
  List.inj_on_of_nodup_map hnd ha hb h

theorem exists_min_docId (l : List Doc) (h : l ≠ []) :
    ∃ m ∈ l, ∀ e ∈ l, m.docId ≤ e.docId := by
  induction l with
  | nil => exact absurd rfl h
  | cons d rest ih =>
    cases rest with
    | nil =>
      refine ⟨d, List.mem_cons_self d _, fun e he => ?_⟩
      rcases List.mem_cons.mp he with h1 | h1
      · rw [h1]
      · cases h1
    | cons d2 r2 =>
      obtain ⟨m, hm, hmin⟩ := ih (List.cons_ne_nil d2 r2)
      by_cases hc : d.docId ≤ m.docId
      · refine ⟨d, List.mem_cons_self d _, fun e he => ?_⟩
        rcases List.mem_cons.mp he with h1 | h1
        · rw [h1]
        · exact le_trans hc (hmin e h1)
      · refine ⟨m, List.mem_cons_of_mem d hm, fun e he => ?_⟩
        rcases List.mem_cons.mp he with h1 | h1
        · rw [h1]; exact le_of_not_le hc
        · exact hmin e h1

/--
C1 (duplicate resolution, kind precedence): in every record collection,
every record of kind `"member"` whose longname is shared by some record
of a different kind is removed by `_resolveDuplication`; in particular,
for the two-record inputs of the claim, only the method record
survives, regardless of which id is lower.
-/
theorem member_removed_when_competing_kind :
    (∀ (docs : List Doc) (M : Doc), M ∈ docs → M.kind = "member" →
      (∃ d ∈ docs, d.longname = M.longname ∧ d.kind ≠ "member") →
      M ∉ _resolveDuplication docs) ∧
    _resolveDuplication
        [{ kind := "member", longname := "Foo#x", docId := 1 },
         { kind := "method", longname := "Foo#x", docId := 2 }] =
      [{ kind := "method", longname := "Foo#x", docId := 2 }] ∧
    _resolveDuplication
        [{ kind := "member", longname := "Foo#x", docId := 2 },
         { kind := "method", longname := "Foo#x", docId := 1 }] =
      [{ kind := "method", longname := "Foo#x", docId := 1 }] := by
  refine ⟨?_, by decide, by decide⟩
  rintro docs M hM hk ⟨d, hd, hl, hdk⟩
  exact not_mem_resolveDuplication (docId_mem_removeIds_of_competing hM hk hd hl hdk)

theorem member_removed_when_competing_kind_witness :
    ({ kind := "member", longname := "Bar#z", docId := 7 } : Doc) ∉
      _resolveDuplication
        [{ kind := "member", longname := "Bar#z", docId := 7 },
         { kind := "getter", longname := "Bar#z", docId := 3 }] :=
  member_removed_when_competing_kind.1 _ _ (by decide) rfl
    ⟨{ kind := "getter", longname := "Bar#z", docId := 3 }, by decide, rfl, by decide⟩

/--
C2 (duplicate resolution, member-member collapse): if the records of
kind `"member"` with longname `L` number at least two, no record of a
different kind has longname `L`, and the creation-sequence ids are
pairwise distinct, then `_resolveDuplication` keeps exactly the member
record with the lowest id and removes all the other members with that
longname.
-/
theorem member_collapse_keeps_lowest (docs : List Doc) (L : String)
    (hnd : (docs.map Doc.docId).Nodup)
    (h2 : 2 ≤ (docs.filter (fun d => d.longname == L && d.kind == "member")).length)
    (hnc : ∀ e ∈ docs, e.longname = L → e.kind = "member") :
    ∃ dmin, dmin ∈ docs ∧ dmin.longname = L ∧ dmin.kind = "member" ∧
      dmin ∈ _resolveDuplication docs ∧
      (∀ e ∈ docs, e.longname = L → e.kind = "member" → dmin.docId ≤ e.docId) ∧
      (∀ e ∈ docs, e.longname = L → e.kind = "member" → e ≠ dmin →
        e ∉ _resolveDuplication docs) := by
  have hne : docs.filter (fun d => d.longname == L && d.kind == "member") ≠ [] := by
    intro hEq
    rw [hEq] at h2
    simp at h2
  obtain ⟨m, hmF, hminF⟩ := exists_min_docId _ hne
  have hmP := List.mem_filter.mp hmF
  have hm : m ∈ docs := hmP.1
  have hmL : m.longname = L ∧ m.kind = "member" := by
    have := hmP.2
    simp only [Bool.and_eq_true, beq_iff_eq] at this
    exact this
  have hminAll : ∀ e ∈ docs, e.longname = L → e.kind = "member" → m.docId ≤ e.docId := by
    intro e he hL hk
    exact hminF e (List.mem_filter.mpr ⟨he, by simp [hL, hk]⟩)
  refine ⟨m, hm, hmL.1, hmL.2, ?_, hminAll, ?_⟩
  · rw [mem_resolveDuplication]
    refine ⟨hm, fun hin => ?_⟩
    obtain ⟨d, hd, hdk, hdid, hcase⟩ := of_mem_removeIds hnd hin
    have hdm : d = m := docId_inj hnd hd hm hdid
    subst hdm
    rcases hcase with ⟨e, he, hel, hek⟩ | ⟨e, he, hel, hek, hlt⟩
    · exact hek (hnc e he (by rw [hel, hmL.1]))
    · have := hminAll e he (by rw [hel, hmL.1]) hek
      omega
  · intro e he hL hk hne'
    have hid : e.docId ≠ m.docId := fun hEq => hne' (docId_inj hnd he hm hEq)
    have hlt : m.docId < e.docId :=
      lt_of_le_of_ne (hminAll e he hL hk) (fun hEq => hid hEq.symm)
    exact not_mem_resolveDuplication
      (docId_mem_removeIds_of_smaller he hk hm (by rw [hmL.1, hL]) hmL.2 hlt)

theorem member_collapse_keeps_lowest_witness :
    ∃ dmin, dmin ∈ ([{ kind := "member", longname := "Foo#y", docId := 1 },
                     { kind := "member", longname := "Foo#y", docId := 2 }] : List Doc) ∧
      dmin.longname = "Foo#y" ∧ dmin.kind = "member" ∧
      dmin ∈ _resolveDuplication
        [{ kind := "member", longname := "Foo#y", docId := 1 },
         { kind := "member", longname := "Foo#y", docId := 2 }] ∧
      (∀ e ∈ ([{ kind := "member", longname := "Foo#y", docId := 1 },
               { kind := "member", longname := "Foo#y", docId := 2 }] : List Doc),
        e.longname = "Foo#y" → e.kind = "member" → dmin.docId ≤ e.docId) ∧
      (∀ e ∈ ([{ kind := "member", longname := "Foo#y", docId := 1 },
               { kind := "member", longname := "Foo#y", docId := 2 }] : List Doc),
        e.longname = "Foo#y" → e.kind = "member" → e ≠ dmin →
        e ∉ _resolveDuplication
          [{ kind := "member", longname := "Foo#y", docId := 1 },
           { kind := "member", longname := "Foo#y", docId := 2 }]) :=
  member_collapse_keeps_lowest _ "Foo#y" (by decide) (by decide) (by decide)

/--
C3 (duplicate resolution, only members removed, order kept): for every
collection with pairwise-distinct ids, the output of
`_resolveDuplication` is a sublist of the input (so the relative order
of surviving records is unchanged) and contains every record whose
kind is not `"member"`.
-/
theorem resolve_sublist_and_keeps_nonmembers (docs : List Doc)
    (hnd : (docs.map Doc.docId).Nodup) :
    (_resolveDuplication docs).Sublist docs ∧
    ∀ d ∈ docs, d.kind ≠ "member" → d ∈ _resolveDuplication docs := by
  refine ⟨List.filter_sublist docs, ?_⟩
  intro d hd hk
  rw [mem_resolveDuplication]
  refine ⟨hd, fun hin => ?_⟩
  obtain ⟨m, hm, hmk, hmid, _⟩ := of_mem_removeIds hnd hin
  have hmd : m = d := docId_inj hnd hm hd hmid
  exact hk (hmd ▸ hmk)

theorem resolve_sublist_and_keeps_nonmembers_witness :
    (_resolveDuplication
        [{ kind := "member", longname := "A#p", docId := 1 },
         { kind := "setter", longname := "A#p", docId := 2 },
         { kind := "class", longname := "A", docId := 3 }]).Sublist
      [{ kind := "member", longname := "A#p", docId := 1 },
       { kind := "setter", longname := "A#p", docId := 2 },
       { kind := "class", longname := "A", docId := 3 }] ∧
    ∀ d ∈ ([{ kind := "member", longname := "A#p", docId := 1 },
            { kind := "setter", longname := "A#p", docId := 2 },
            { kind := "class", longname := "A", docId := 3 }] : List Doc),
      d.kind ≠ "member" → d ∈ _resolveDuplication
        [{ kind := "member", longname := "A#p", docId := 1 },
         { kind := "setter", longname := "A#p", docId := 2 },
         { kind := "class", longname := "A", docId := 3 }] :=
  resolve_sublist_and_keeps_nonmembers _ (by decide)

/--
C10 (duplicate resolution is idempotent): for every collection with
pairwise-distinct ids, applying `_resolveDuplication` to its own
output removes nothing.
-/
theorem resolveDuplication_idempotent (docs : List Doc)
    (hnd : (docs.map Doc.docId).Nodup) :
    _resolveDuplication (_resolveDuplication docs) = _resolveDuplication docs := by
  have hsub : (_resolveDuplication docs).Sublist docs := List.filter_sublist docs
  have hnd' : ((_resolveDuplication docs).map Doc.docId).Nodup :=
    hnd.sublist (hsub.map Doc.docId)
  have hnone : ∀ d ∈ _resolveDuplication docs,
      d.docId ∉ removeIds (_resolveDuplication docs) := by
    intro d hd hin
    obtain ⟨m, hm, hmk, _, hcase⟩ := of_mem_removeIds hnd' hin
    have hmdocs : m ∈ docs := (mem_resolveDuplication.mp hm).1
    have hmnot : m.docId ∉ removeIds docs := (mem_resolveDuplication.mp hm).2
    rcases hcase with ⟨e, he, hel, hek⟩ | ⟨e, he, hel, hek, hlt⟩
    · exact hmnot (docId_mem_removeIds_of_competing hmdocs hmk
        (mem_resolveDuplication.mp he).1 hel hek)
    · exact hmnot (docId_mem_removeIds_of_smaller hmdocs hmk
        (mem_resolveDuplication.mp he).1 hel hek hlt)
  rw [show _resolveDuplication (_resolveDuplication docs) =
      (_resolveDuplication docs).filter
        (fun doc => !(removeIds (_resolveDuplication docs)).contains doc.docId) from rfl]
  rw [List.filter_eq_self]
  intro a ha
  have := hnone a ha
  simpa using this

theorem resolveDuplication_idempotent_witness :
    _resolveDuplication (_resolveDuplication
        [{ kind := "member", longname := "Foo#x", docId := 1 },
         { kind := "method", longname := "Foo#x", docId := 2 },
         { kind := "member", longname := "Foo#y", docId := 3 },
         { kind := "member", longname := "Foo#y", docId := 4 }]) =
      _resolveDuplication
        [{ kind := "member", longname := "Foo#x", docId := 1 },
         { kind := "method", longname := "Foo#x", docId := 2 },
         { kind := "member", longname := "Foo#y", docId := 3 },
         { kind := "member", longname := "Foo#y", docId := 4 }] :=
  resolveDuplication_idempotent _ (by decide)

theorem walkCallbackAccepts_eq (includes excludes : List (String → Bool)) (rel : String) :
    walkCallbackAccepts includes excludes rel =
      (includes.any (fun reg => reg rel) && !(excludes.any (fun reg => reg rel))) := by
  unfold walkCallbackAccepts
  cases h1 : includes.any (fun reg => reg rel) <;>
    cases h2 : excludes.any (fun reg => reg rel) <;> simp [h1, h2]

/--
C4 (path matching): a candidate relative path is handed to extraction
if and only if it matches at least one include pattern and none of the
exclude patterns; consequently a path matching any exclude pattern is
never submitted, even when an include pattern also matches.
-/
theorem path_matching_iff (includes excludes : List (String → Bool)) (rel : String) :
    walkCallbackAccepts includes excludes rel = true ↔
      ((∃ reg ∈ includes, reg rel = true) ∧ ∀ reg ∈ excludes, reg rel = false) := by
  rw [walkCallbackAccepts_eq]
  simp only [Bool.and_eq_true, List.any_eq_true, Bool.not_eq_true',
    List.any_eq_false, Bool.not_eq_true]

theorem path_matching_iff_witness :
    ((∃ reg ∈ [fun s => s == "a.js"], reg "a.js" = true) ∧
      ∀ reg ∈ ([fun s => s == "a.test.js"] : List (String → Bool)), reg "a.js" = false) :=
  (path_matching_iff [fun s => s == "a.js"] [fun s => s == "a.test.js"] "a.js").mp rfl

/--
C7 (parse failure is recoverable per file): a file whose parse fails
contributes no records and no AST persistence job — the whole run over
the file list behaves exactly as if the file were absent — so records
from the other, successfully parsed files still appear in the final
`index.json`.
-/
theorem parse_failure_recoverable {AST : Type} (parse : String → Except String AST)
    (extract : AST → List Doc) (onHandleDocs : List Doc → List Doc)
    (pre post : List String) (bad : String)
    (hbad : ∃ msg, parse bad = Except.error msg) :
    processFiles parse extract (pre ++ bad :: post) =
      processFiles parse extract (pre ++ post) ∧
    indexJson parse extract onHandleDocs (pre ++ bad :: post) =
      indexJson parse extract onHandleDocs (pre ++ post) := by
  obtain ⟨msg, hmsg⟩ := hbad
  have hstep : ∀ acc : List Doc × List (String × AST),
      processStep parse extract acc bad = acc := by
    intro acc
    unfold processStep _traverse
    rw [hmsg]
  have h1 : processFiles parse extract (pre ++ bad :: post) =
      processFiles parse extract (pre ++ post) := by
    unfold processFiles
    rw [List.foldl_append, List.foldl_append, List.foldl_cons, hstep]
  refine ⟨h1, ?_⟩
  unfold indexJson
  rw [h1]

theorem parse_failure_recoverable_witness :
    processFiles witnessParse witnessExtract (["good1.src"] ++ "bad.src" :: ["good2.src"]) =
      processFiles witnessParse witnessExtract (["good1.src"] ++ ["good2.src"]) ∧
    indexJson witnessParse witnessExtract id (["good1.src"] ++ "bad.src" :: ["good2.src"]) =
      indexJson witnessParse witnessExtract id (["good1.src"] ++ ["good2.src"]) :=
  parse_failure_recoverable witnessParse witnessExtract id ["good1.src"] ["good2.src"]
    "bad.src" ⟨"SyntaxError", rfl⟩

theorem hasEntry_of_findEntry : ∀ {es : FSEntries} {name : String} {t : FSTree},
    findEntry es name = some t → hasEntry es name = true
  | .nil, _, _, h => by cases h
  | .cons n t2 rest, name, t, h => by
    unfold findEntry at h
    unfold hasEntry
    by_cases hn : (n == name) = true
    · simp [hn]
    · rw [if_neg hn] at h
      simp [hn, hasEntry_of_findEntry h]

theorem combine_err_none {a : WalkResult} (b : WalkResult) (h : a.err = none) :
    combine a b =
      { logs := a.logs ++ b.logs, events := a.events ++ b.events, err := b.err } := by
  unfold combine
  rw [h]

theorem combine_assoc (a b c : WalkResult) :
    combine (combine a b) c = combine a (combine b c) := by
  cases a with
  | mk alogs aevents aerr =>
    cases b with
    | mk blogs bevents berr =>
      cases aerr <;> cases berr <;> simp [combine, List.append_assoc]

theorem walkRootEntries_append (pp : String → Option PackageObj)
    (p : List String) : ∀ (a b : FSEntries),
    walkRootEntries pp (a.append b) p =
      combine (walkRootEntries pp a p) (walkRootEntries pp b p)
  | .nil, b => by
    simp only [FSEntries.append, walkRootEntries]
    cases hb : walkRootEntries pp b p with
    | mk l e er => simp [combine]
  | .cons n t r, b => by
    cases t with
    | file c =>
      simp only [FSEntries.append, walkRootEntries]
      rw [walkRootEntries_append pp p r b, ← combine_assoc]
    | dir es =>
      simp only [FSEntries.append, walkRootEntries]
      rw [walkRootEntries_append pp p r b, ← combine_assoc]

/--
C5 evaluated on its failing input: a directory whose descriptor
resolves the source subdirectory to a missing `lib`.  The code logs
the diagnostic but then still recurses into the missing directory
(`src/ESDoc.js` line 259), whose `readdirSync` throws `ENOENT`
uncaught — the walk crashes instead of yielding zero files and
continuing, contradicting the claim.
-/
theorem missing_srcdir_walk_crashes :
    walkRoot pkgLibParse missingLibTree ["proj"] =
      { logs := ["Found package at proj/package.json",
                 "Looked for project sources in proj/lib, but the directory did not exist.",
                 "You are seeing this because you attempted to document a folder which contains a package.json file.",
                 "If you need to override the source directory of a package, set directories src in package.json."],
        events := [WalkEvent.descriptorCallback ["proj", "package.json"]
          { name := none, main := none, directories := some { src := some "lib" } }],
        err := some "ENOENT: no such file or directory, scandir proj/lib" } := by
  decide

/--
C6 (unparseable descriptor): when a directory's `package.json` fails to
parse, `_walkRoot` logs two errors, emits no synthetic descriptor
callback, and returns normally without descending into that subtree
(events empty, no exception); in the caller's `_walk` loop the entry
therefore contributes nothing, while the sibling entries after it are
still walked.
-/
theorem unparseable_descriptor_aborts_subtree_only
    (pp : String → Option PackageObj) (entries : FSEntries) (contents : String)
    (hfind : findEntry entries "package.json" = some (.file contents))
    (hparse : pp contents = none) :
    (∀ dirPath : List String, walkRoot pp (.dir entries) dirPath =
      { logs := ["Failed to parse package at " ++ pathStr (dirPath ++ ["package.json"]),
                 "Found unparseable package.json at " ++
                   pathStr (dirPath ++ ["package.json"]) ++ ". Aborting."],
        events := [], err := none }) ∧
    (∀ (pre post : FSEntries) (name : String) (p : List String),
      (walkRootEntries pp pre p).err = none →
      (walkRootEntries pp (pre.append (.cons name (.dir entries) post)) p).events =
        (walkRootEntries pp pre p).events ++ (walkRootEntries pp post p).events ∧
      (walkRootEntries pp (pre.append (.cons name (.dir entries) post)) p).err =
        (walkRootEntries pp post p).err) := by
  have hhas : hasEntry entries "package.json" = true := hasEntry_of_findEntry hfind
  have hbad : ∀ dirPath : List String, walkRoot pp (.dir entries) dirPath =
      { logs := ["Failed to parse package at " ++ pathStr (dirPath ++ ["package.json"]),
                 "Found unparseable package.json at " ++
                   pathStr (dirPath ++ ["package.json"]) ++ ". Aborting."],
        events := [], err := none } := by
    intro dirPath
    simp only [walkRoot, hhas, if_true, requirePackage, hfind, hparse]
  refine ⟨hbad, ?_⟩
  intro pre post name p hpre
  rw [walkRootEntries_append pp p pre (.cons name (.dir entries) post)]
  have hcons : walkRootEntries pp (.cons name (.dir entries) post) p =
      combine (walkRoot pp (.dir entries) (p ++ [name])) (walkRootEntries pp post p) := by
    simp only [walkRootEntries]
  rw [hcons, hbad (p ++ [name])]
  rw [combine_err_none _ hpre]
  rw [combine_err_none _ rfl]
  simp

theorem unparseable_descriptor_aborts_subtree_only_witness :
    walkRoot alwaysFailParse (.dir badPkgEntries) ["root", "bad"] =
      { logs := ["Failed to parse package at root/bad/package.json",
                 "Found unparseable package.json at root/bad/package.json. Aborting."],
        events := [], err := none } ∧
    (walkRootEntries alwaysFailParse
        ((FSEntries.cons "a.js" (.file "A") .nil).append
          (.cons "bad" (.dir badPkgEntries)
            (.cons "b.js" (.file "B") .nil))) []).events =
      (walkRootEntries alwaysFailParse (FSEntries.cons "a.js" (.file "A") .nil) []).events ++
      (walkRootEntries alwaysFailParse (FSEntries.cons "b.js" (.file "B") .nil) []).events := by
  have h := unparseable_descriptor_aborts_subtree_only alwaysFailParse badPkgEntries
    "NOT JSON" rfl rfl
  refine ⟨?_, (h.2 (FSEntries.cons "a.js" (.file "A") .nil)
    (.cons "b.js" (.file "B") .nil) "bad" [] rfl).1⟩
  rw [h.1 ["root", "bad"]]
  rfl

/--
C8 (pre-flight configuration validation): for every configuration with
`root` set together with `source` or `package`, and for every
configuration without a `destination`, `generate` fails its assert
phase before any directory is walked or file is touched — the run
result is an error carrying the assertion message, produced before the
walk branch is ever reached.
-/
theorem preflight_validation_fails_before_walk (onHandleConfig : Config → Config)
    (pp : String → Option PackageObj) (tree : FSTree) (c : Config)
    (h : (truthyS c.root = true ∧ (truthyS c.source = true ∨ truthyS c.package = true)) ∨
         truthyS c.destination = false) :
    ∃ e, generateRun onHandleConfig pp tree c = Except.error e := by
  cases hroot : truthyS c.root <;> cases hsrc : truthyS c.source <;>
    cases hpkg : truthyS c.package <;> cases hdest : truthyS c.destination <;>
      simp_all [generateRun, preflight]

theorem preflight_validation_fails_before_walk_witness :
    (∃ e, generateRun id (fun _ => none) (FSTree.dir FSEntries.nil)
        { root := some "./pkg", source := some "./src", destination := some "./out" } =
      Except.error e) ∧
    (∃ e, generateRun id (fun _ => none) (FSTree.dir FSEntries.nil)
        { source := some "./src" } = Except.error e) :=
  ⟨preflight_validation_fails_before_walk id (fun _ => none) (FSTree.dir FSEntries.nil) _
      (Or.inl ⟨by decide, Or.inl (by decide)⟩),
   preflight_validation_fails_before_walk id (fun _ => none) (FSTree.dir FSEntries.nil) _
      (Or.inr (by decide))⟩

/--
C9 counterexample: the claim says defaulting precedes the single
`onHandleConfig` rewrite, but `generate` applies the hook first
(line 42) and defaults afterwards (line 44).  With a hook that copies
`includes` into `excludes` and a config leaving `includes` unset, the
two orders produce different configurations: in the code's order the
hook sees no includes and defaulting later fills both lists, while in
the claimed order the hook would see the defaulted include list and
copy it.
-/
theorem config_hook_order_counterexample :
    configPhase hookCopyIncludes
        { source := some "./src", destination := some "./out" } ≠
      specConfigPhase hookCopyIncludes
        { source := some "./src", destination := some "./out" } := by
  decide

theorem setDefaultConfig_defaults (c : Config) :
    (_setDefaultConfig c).includes.isSome = true ∧
    (_setDefaultConfig c).excludes.isSome = true ∧
    truthyS (_setDefaultConfig c).index = true := by
  unfold _setDefaultConfig
  dsimp only
  split_ifs <;> simp_all <;> decide

/--
C9 amended (configuration lifecycle ordering): the configuration is
built once; the single `onHandleConfig` rewrite occurs immediately
BEFORE defaulting (the config hook precedes defaulting, not the other
way around); the resulting configuration is the one the remainder of
the run uses unchanged, and it always carries the defaulted
`includes`, `excludes` and `index` fields.
-/
theorem config_lifecycle_hook_then_default (onHandleConfig : Config → Config)
    (pp : String → Option PackageObj) (tree : FSTree) (c : Config)
    (h : preflight c = Except.ok ()) :
    generateRun onHandleConfig pp tree c =
      Except.ok (configPhase onHandleConfig c,
        if truthyS (configPhase onHandleConfig c).root then walkRoot pp tree []
        else walkPlain tree []) ∧
    (configPhase onHandleConfig c).includes.isSome = true ∧
    (configPhase onHandleConfig c).excludes.isSome = true ∧
    truthyS (configPhase onHandleConfig c).index = true := by
  refine ⟨?_, setDefaultConfig_defaults (onHandleConfig c)⟩
  cases hb : truthyS (_setDefaultConfig (onHandleConfig c)).root <;>
    simp [generateRun, configPhase, h, hb]

theorem config_lifecycle_hook_then_default_witness :
    generateRun hookCopyIncludes (fun _ => none) (FSTree.dir FSEntries.nil)
        { source := some "./src", destination := some "./out" } =
      Except.ok (configPhase hookCopyIncludes
          { source := some "./src", destination := some "./out" },
        if truthyS (configPhase hookCopyIncludes
            { source := some "./src", destination := some "./out" }).root then
          walkRoot (fun _ => none) (FSTree.dir FSEntries.nil) []
        else walkPlain (FSTree.dir FSEntries.nil) []) ∧
    (configPhase hookCopyIncludes
        { source := some "./src", destination := some "./out" }).includes.isSome = true ∧
    (configPhase hookCopyIncludes
        { source := some "./src", destination := some "./out" }).excludes.isSome = true ∧
    truthyS (configPhase hookCopyIncludes
        { source := some "./src", destination := some "./out" }).index = true :=
  config_lifecycle_hook_then_default hookCopyIncludes (fun _ => none)
    (FSTree.dir FSEntries.nil) _ rfl

end ESDoc
